import Mathlib

/-!
# Verification of the static-code-analysis evaluation pipeline

This file gives a shallow embedding, in Lean 4, of the core of the
automated code-review pipeline (the `Evaluator` orchestrator, the
response cleaning / Judge-parsing / Refiner repair protocol, the
deterministic scoring functions of the two language profiles, and the
lint/build-diagnostic noise filters), together with theorems settling
the specification claims about that core.

Modelling conventions:

* Python strings are modelled as Lean `String` / `List Char`; the
  Python `str.strip` / `str.lower` / `str.capitalize` operations are
  embedded over the ASCII fragment actually exercised by the code.
* Python dictionaries coming from `json.loads` are modelled by the
  inductive type `Json`; `json.loads` itself (standard library, not
  repository code) is an abstract parameter `loads : String → Except
  String Json` whose `.error` case stands for `json.JSONDecodeError`
  carrying the decoder message.
* Python exceptions are explicit: fallible repository code returns
  `Except PyExc α`; an uncaught exception is an `.error` value that
  propagates through binds exactly where the Python code has no
  enclosing `try`/`except` that catches it.
* JSON numbers are modelled as integers; every numeric value reaching
  the verified code paths in the claims is integral.
-/

namespace SCA

/-- The ASCII whitespace characters stripped by Python `str.strip()`
(the code never feeds non-ASCII whitespace to `strip`). -/
def isPyWs (c : Char) : Bool :=
  c = ' ' ∨ c = '\t' ∨ c = '\n' ∨ c = '\r' ∨ c = '\x0b' ∨ c = '\x0c'

/-- The backtick character (U+0060), written via its code point. -/
def btick : Char := Char.ofNat 96

/-- Python `str.lstrip()` on character lists. -/
def lstripWs (l : List Char) : List Char := l.dropWhile isPyWs

/-- Generic right-strip: drop the longest suffix of characters
satisfying `p` (used for Python `str.rstrip` and the trailing part of
`str.strip`). -/
def rstripBy (p : Char → Bool) (l : List Char) : List Char :=
  ((l.reverse).dropWhile p).reverse

/-- Python `str.strip()` on character lists. -/
def stripWs (l : List Char) : List Char := rstripBy isPyWs (lstripWs l)

/-- Python `str.strip()` on strings. -/
def pyStrip (s : String) : String := (stripWs s.toList).asString

/-- Python `str.capitalize()` on character lists: first character
upper-cased, all remaining characters lower-cased (ASCII). -/
def capitalizeL (l : List Char) : List Char :=
  match l with
  | [] => []
  | c :: cs => c.toUpper :: cs.map Char.toLower

/-- Python `str.lower()` on strings (ASCII). -/
def pyLower (s : String) : String := (s.toList.map Char.toLower).asString

/-- The severity normalisation performed by both
`PythonProfile.calculate_score` and `CSharpProfile.calculate_score`:
`(v.get("severity") or "").strip().capitalize()`. -/
def normalizeSeverity (s : String) : String :=
  (capitalizeL (stripWs s.toList)).asString

/-- A verified violation as consumed by `calculate_score`: the scoring
code reads only the `severity` field (`none` models a missing key or a
JSON `null`, both of which `v.get("severity") or ""` turns into `""`). -/
structure Violation where
  severity : Option String
deriving Repr, DecidableEq

/-- Embedding of `PythonProfile.calculate_score` /
`CSharpProfile.calculate_score` (both bodies are identical): start at
100, subtract 15 / 7 / 2 per Critical / Major / Minor violation
(severity matched after strip + capitalize), subtract 5 once if any
analyzed block's cyclomatic complexity exceeds 15 (the Python loop
`break`s after the first such block), then clamp with
`max(0, min(100, score))`.  `blocks` is the list of
`b.get("complexity", 0)` values of the complexity-tool blocks. -/
def calculateScore (violations : List Violation) (blocks : List Int) : Int :=
  let score := violations.foldl
    (fun acc v =>
      let sev := normalizeSeverity (v.severity.getD "")
      if sev = "Critical" then acc - 15
      else if sev = "Major" then acc - 7
      else if sev = "Minor" then acc - 2
      else acc) 100
  let score2 := if blocks.any (fun c => 15 < c) then score - 5 else score
  max 0 (min 100 score2)

/-- The per-violation penalty implicit in `calculate_score`. -/
def sevPenalty (v : Violation) : Int :=
  let sev := normalizeSeverity (v.severity.getD "")
  if sev = "Critical" then 15
  else if sev = "Major" then 7
  else if sev = "Minor" then 2
  else 0

/-- Number of violations of `violations` whose normalised severity
equals `target`. -/
def countSev (target : String) (violations : List Violation) : Nat :=
  violations.countP (fun v => normalizeSeverity (v.severity.getD "") = target)

/-- Reference scoring function, written exactly as the specification
describes it: 100, minus 15 per Critical violation, minus 7 per Major,
minus 2 per Minor, minus a single complexity penalty of 5 if any
analyzed block's cyclomatic complexity exceeds the threshold 15, then
clamped to [0, 100]. -/
def referenceScore (violations : List Violation) (blocks : List Int) : Int :=
  let complexityPen : Int := if blocks.any (fun c => 15 < c) then 5 else 0
  max 0 (min 100 (100 - 15 * (countSev "Critical" violations : Int)
    - 7 * (countSev "Major" violations : Int)
    - 2 * (countSev "Minor" violations : Int) - complexityPen))

/-- The score before clamping: 100 minus all severity penalties minus
the (at most one) complexity penalty. -/
def rawScore (violations : List Violation) (blocks : List Int) : Int :=
  100 - (violations.map sevPenalty).sum
    - (if blocks.any (fun c => 15 < c) then 5 else 0)

/-! ## The response-cleaning step (`Evaluator._clean_json_response`) -/

/-- Embedding of `re.sub(r"```(?:json)?", "", raw)`: scan left to
right; at each position greedily remove three backticks followed by
`json` when present, otherwise three backticks alone, otherwise keep
the character and move on.  This is exactly the leftmost, greedy
(non-overlapping) semantics of the Python regex substitution. -/
def removeFences : List Char → List Char
  | [] => []
  | c1 :: c2 :: c3 :: c4 :: c5 :: c6 :: c7 :: rest =>
      if c1 = btick ∧ c2 = btick ∧ c3 = btick then
        if c4 = 'j' ∧ c5 = 's' ∧ c6 = 'o' ∧ c7 = 'n'
        then removeFences rest
        else removeFences (c4 :: c5 :: c6 :: c7 :: rest)
      else c1 :: removeFences (c2 :: c3 :: c4 :: c5 :: c6 :: c7 :: rest)
  | c1 :: c2 :: c3 :: rest =>
      if c1 = btick ∧ c2 = btick ∧ c3 = btick
      then removeFences rest
      else c1 :: removeFences (c2 :: c3 :: rest)
  | c :: rest => c :: removeFences rest

/-- Whether a character list contains three consecutive backticks
(i.e. a code-fence marker). -/
def hasTriple : List Char → Bool
  | c1 :: c2 :: c3 :: rest =>
      (decide (c1 = btick) && decide (c2 = btick) && decide (c3 = btick))
        || hasTriple (c2 :: c3 :: rest)
  | _ => false

/-- Embedding of `Evaluator._clean_json_response` on character lists:
`re.sub(r"```(?:json)?", "", raw).strip().rstrip("`")`. -/
def cleanResponseL (l : List Char) : List Char :=
  rstripBy (fun c => c = btick) (stripWs (removeFences l))

/-- Embedding of `Evaluator._clean_json_response` on strings. -/
def cleanJsonResponse (s : String) : String :=
  (cleanResponseL s.toList).asString

/-- Characters that can end a serialized JSON value: closing quote,
closing brace/bracket, a digit, or the final letter of
`true`/`false`/`null`.  Any valid JSON text ends with one of these;
none of them is a backtick, the letter `n`, or whitespace. -/
def isJsonTerminator (c : Char) : Bool :=
  c = '"' ∨ c = '}' ∨ c = ']' ∨ c.isDigit ∨ c = 'e' ∨ c = 'l'

/-! ## JSON values and Python dictionary semantics -/

/-- A parsed JSON value, as produced by `json.loads`.  Object fields
are an association list (keys unique, as `json.loads` never produces
duplicates).  Numbers are modelled as integers (see the header note). -/
inductive Json where
  | null
  | bool (b : Bool)
  | num (n : Int)
  | str (s : String)
  | arr (elems : List Json)
  | obj (fields : List (String × Json))
deriving Repr

/-- The Python exceptions that can arise in the embedded code paths. -/
inductive PyExc where
  | jsonDecodeError (msg : String)
  | valueError (msg : String)
  | typeError (msg : String)
  | attributeError (msg : String)
deriving Repr, DecidableEq

/-- Python type name of a JSON value (used in exception messages). -/
def pyTypeName : Json → String
  | .null => "NoneType"
  | .bool _ => "bool"
  | .num _ => "int"
  | .str _ => "str"
  | .arr _ => "list"
  | .obj _ => "dict"

/-- Python truthiness of a JSON value. -/
def pyTruthy : Json → Bool
  | .null => false
  | .bool b => b
  | .num n => n ≠ 0
  | .str s => s ≠ ""
  | .arr l => !l.isEmpty
  | .obj f => !f.isEmpty

/-- Python `value.get(key)`: returns the field (possibly `none` for a
missing key) on a dict, raises `AttributeError` on any other value —
lists, strings, numbers, booleans and `None` have no `get` method. -/
def pyGet (j : Json) (key : String) : Except PyExc (Option Json) :=
  match j with
  | .obj fields => .ok (fields.lookup key)
  | _ => .error (.attributeError
      ("'" ++ pyTypeName j ++ "' object has no attribute 'get'"))

/-- Python `value.get(key, default)`. -/
def pyGetD (j : Json) (key : String) (dflt : Json) : Except PyExc Json :=
  match pyGet j key with
  | .error e => .error e
  | .ok v => .ok (v.getD dflt)

/-- Python `x or ""` applied to an optional lookup result: `None`, and
any falsy value, becomes the empty string. -/
def pyOrEmptyStr (v : Option Json) : Json :=
  match v with
  | none => .str ""
  | some j => if pyTruthy j then j else .str ""

/-- Python `value.strip()`: defined on strings, `AttributeError` on
anything else. -/
def pyStripMethod (j : Json) : Except PyExc String :=
  match j with
  | .str s => .ok (pyStrip s)
  | _ => .error (.attributeError
      ("'" ++ pyTypeName j ++ "' object has no attribute 'strip'"))

/-! ## Lint filtering (`StaticTools.filter_pylint_results`,
`CSharpTools.filter_build_diagnostics`) -/

/-- The structured result of `run_pylint`:
`{"score": float, "messages": [...], "error": str | null}`.  The
filter copies this record and replaces `messages`. -/
structure PylintReport where
  score : Json
  messages : List Json
  error : Option String
deriving Repr

/-- The structured result of `run_dotnet_build`:
`{"diagnostics": [...], "error": str | null}`. -/
structure BuildReport where
  diagnostics : List Json
  error : Option String
deriving Repr

/-- The always-ignored Pylint message ids of `filter_pylint_results`
(missing docstrings, line-too-long, fixme, too-few-public-methods,
too-many-arguments). -/
def ignoredMessageIds : List String :=
  ["C0114", "C0115", "C0116", "C0301", "W0511", "R0903", "R0913"]

/-- `(m.get("message_id") or "").strip()` from the filter loop. -/
def msgIdOf (m : Json) : Except PyExc String :=
  match pyGet m "message_id" with
  | .error e => .error e
  | .ok v => pyStripMethod (pyOrEmptyStr v)

/-- Embedding of the local `_type_bucket` helper:
`t = (m.get("type") or "").strip().lower()`, mapped onto the five
canonical buckets (accepting single-letter forms), with `t or
"unknown"` as the fall-through. -/
def typeBucket (m : Json) : Except PyExc String :=
  match pyGet m "type" with
  | .error e => .error e
  | .ok v =>
      match pyStripMethod (pyOrEmptyStr v) with
      | .error e => .error e
      | .ok ts =>
          let t := pyLower ts
          if t = "fatal" ∨ t = "f" then .ok "fatal"
          else if t = "error" ∨ t = "e" then .ok "error"
          else if t = "warning" ∨ t = "w" then .ok "warning"
          else if t = "convention" ∨ t = "c" then .ok "convention"
          else if t = "refactor" ∨ t = "r" then .ok "refactor"
          else if t = "" then .ok "unknown"
          else .ok t

/-- `isinstance(score, (int, float)) and score < threshold`.  Python
booleans are `int` subclasses, so a boolean score also passes the
`isinstance` check. -/
def scoreIsLow (score : Json) (threshold : Int) : Bool :=
  match score with
  | .num n => n < threshold
  | .bool b => (if b then (1 : Int) else 0) < threshold
  | _ => false

/-- The message loop of `filter_pylint_results`: drop always-ignored
ids first; keep fatal/error/warning buckets; keep convention/refactor
and unknown buckets only when the report score is below the low-score
threshold (default 5.0). -/
def filterPylintMessages (score : Json) : List Json → Except PyExc (List Json)
  | [] => .ok []
  | m :: rest =>
      match msgIdOf m with
      | .error e => .error e
      | .ok msgId =>
          if msgId ∈ ignoredMessageIds then filterPylintMessages score rest
          else
            match typeBucket m with
            | .error e => .error e
            | .ok bucket =>
                if bucket = "fatal" ∨ bucket = "error" ∨ bucket = "warning" then
                  (filterPylintMessages score rest).map (fun tail => m :: tail)
                else if bucket = "convention" ∨ bucket = "refactor" then
                  if scoreIsLow score 5
                  then (filterPylintMessages score rest).map (fun tail => m :: tail)
                  else filterPylintMessages score rest
                else if scoreIsLow score 5
                then (filterPylintMessages score rest).map (fun tail => m :: tail)
                else filterPylintMessages score rest

/-- Embedding of `StaticTools.filter_pylint_results` (with the default
`low_score_threshold = 5.0`): copy the report, filter the messages. -/
def filterPylintResults (raw : PylintReport) : Except PyExc PylintReport :=
  match filterPylintMessages raw.score raw.messages with
  | .error e => .error e
  | .ok filtered => .ok { raw with messages := filtered }

/-- The diagnostic predicate of `filter_build_diagnostics`:
`d.get("id", "") not in {"CS1591"}` (a non-string id is never equal to
the string `"CS1591"`). -/
def keepDiag (d : Json) : Except PyExc Bool :=
  match pyGetD d "id" (.str "") with
  | .error e => .error e
  | .ok (.str s) => .ok (decide (s ≠ "CS1591"))
  | .ok _ => .ok true

/-- The list comprehension of `filter_build_diagnostics`. -/
def filterBuildList : List Json → Except PyExc (List Json)
  | [] => .ok []
  | d :: rest =>
      match keepDiag d with
      | .error e => .error e
      | .ok keep =>
          (filterBuildList rest).map
            (fun tail => if keep then d :: tail else tail)

/-- Embedding of `CSharpTools.filter_build_diagnostics`: copy the
report, keep every diagnostic whose id is outside the denylist
`{"CS1591"}`. -/
def filterBuildDiagnostics (raw : BuildReport) : Except PyExc BuildReport :=
  match filterBuildList raw.diagnostics with
  | .error e => .error e
  | .ok kept => .ok { raw with diagnostics := kept }

/-- A Pylint message whose type is in the highest severity tier
(`error`) but whose message id `C0301` is on the always-ignored
denylist. -/
def msgErrC0301 : Json :=
  .obj [("type", .str "error"), ("message_id", .str "C0301")]

/-! ## Judge parsing, the Refiner repair protocol, and `evaluate` -/

/-- The record built by `Evaluator._try_parse_judge_json`:
`{"verified_violations": data.get("verified_violations", []),
"analysis_summary": data.get("analysis_summary", "")}`.  Both values
are whatever JSON the Judge produced (not validated further here). -/
structure JudgeData where
  verified_violations : Json
  analysis_summary : Json
deriving Repr

/-- Embedding of `Evaluator._try_parse_judge_json`.  `loads` is the
abstract `json.loads`; its `.error` case is the `json.JSONDecodeError`
message, which the function's `except (JSONDecodeError, ValueError,
TypeError)` clause catches and converts to `(None, str(exc))`.  When
the parsed value is a dict, `data.get` succeeds with defaults `[]` and
`""`.  When it is any non-dict value (list, string, number, boolean or
null), `data.get` raises `AttributeError` — which the except clause
does NOT catch, so it propagates to the caller. -/
def tryParseJudgeJson (loads : String → Except String Json)
    (cleaned : String) : Except PyExc (Option JudgeData × Option String) :=
  match loads cleaned with
  | .error m => .ok (none, some m)
  | .ok (.obj fields) =>
      .ok (some ⟨(fields.lookup "verified_violations").getD (.arr []),
                 (fields.lookup "analysis_summary").getD (.str "")⟩, none)
  | .ok j => .error (.attributeError
      ("'" ++ pyTypeName j ++ "' object has no attribute 'get'"))

/-- Embedding of `Evaluator._parse_json_list` (the Detective parse):
clean, parse, return the list if the top-level value is a list, and
`[]` on a decode failure or any other top-level type. -/
def parseJsonList (loads : String → Except String Json) (raw : String) :
    List Json :=
  match loads (cleanJsonResponse raw) with
  | .ok (.arr l) => l
  | _ => []

/-- Embedding of `Evaluator._parse_judge_response_with_refiner`.
`refinerChat n` is the result of the `n`-th Refiner `chat` call of this
evaluation (`.error` is the `RuntimeError` a failed transport raises,
which the surrounding `except RuntimeError` catches); the code performs
at most one such call, using index 0.  An `AttributeError` escaping
`_try_parse_judge_json` propagates out of this method unchanged. -/
def parseJudgeWithRefiner (loads : String → Except String Json)
    (refinerChat : Nat → Except String String) (raw : String) :
    Except PyExc (JudgeData × Bool) :=
  match tryParseJudgeJson loads (cleanJsonResponse raw) with
  | .error e => .error e
  | .ok (some data, _) => .ok (data, false)
  | .ok (none, err) =>
      match refinerChat 0 with
      | .error _exc =>
          .ok (⟨.arr [],
            .str ("JSON parse error: " ++ err.getD ""
              ++ ". Refiner call failed.")⟩,
            true)
      | .ok refinerResponse =>
          match tryParseJudgeJson loads (cleanJsonResponse refinerResponse) with
          | .error e => .error e
          | .ok (some data2, _) => .ok (data2, false)
          | .ok (none, err2) =>
              .ok (⟨.arr [],
                .str ("JSON parse error: " ++ err.getD ""
                  ++ ". Refiner failed: " ++ err2.getD "")⟩,
                true)

/-- Python's iteration over the value stored under
`verified_violations`: lists yield elements, strings yield one-char
strings, dicts yield their keys, anything else raises `TypeError`. -/
def pyIterItems (j : Json) : Except PyExc (List Json) :=
  match j with
  | .arr l => .ok l
  | .str s => .ok (s.toList.map (fun c => Json.str (String.singleton c)))
  | .obj fields => .ok (fields.map (fun kv => Json.str kv.1))
  | _ => .error (.typeError
      ("'" ++ pyTypeName j ++ "' object is not iterable"))

/-- The violation loop of `calculate_score` over raw JSON items, with
full Python exception behaviour (`v.get` on a non-dict raises
`AttributeError`, `.strip()` on a truthy non-string raises
`AttributeError`). -/
def scoreLoop : List Json → Int → Except PyExc Int
  | [], acc => .ok acc
  | v :: rest, acc =>
      match pyGet v "severity" with
      | .error e => .error e
      | .ok sevOpt =>
          match pyStripMethod (pyOrEmptyStr sevOpt) with
          | .error e => .error e
          | .ok stripped =>
              let sev := (capitalizeL stripped.toList).asString
              scoreLoop rest
                (if sev = "Critical" then acc - 15
                 else if sev = "Major" then acc - 7
                 else if sev = "Minor" then acc - 2
                 else acc)

/-- The complexity loop of `calculate_score` over raw JSON blocks:
`for b in blocks: if b.get("complexity", 0) > 15: score -= 5; break`.
Returns the penalty (0 or 5); comparing a non-numeric complexity with
15 raises `TypeError` exactly as Python's `>` does. -/
def complexityLoop : List Json → Except PyExc Int
  | [] => .ok 0
  | b :: rest =>
      match pyGetD b "complexity" (.num 0) with
      | .error e => .error e
      | .ok (.num n) => if 15 < n then .ok 5 else complexityLoop rest
      | .ok (.bool bb) =>
          if 15 < (if bb then (1 : Int) else 0) then .ok 5
          else complexityLoop rest
      | .ok cv => .error (.typeError
          ("'>' not supported between instances of '"
            ++ pyTypeName cv ++ "' and 'int'"))

/-- `calculate_score` as invoked by `evaluate` on the raw
`verified_violations` JSON value and the complexity blocks of the tool
report: the violation loop, then the complexity loop, then the clamp
`max(0, min(100, score))`.  Exceptions propagate (there is no
`try`/`except` around the scoring call in `evaluate`). -/
def pyCalcScore (vv : Json) (blocks : List Json) : Except PyExc Int :=
  match pyIterItems vv with
  | .error e => .error e
  | .ok items =>
      match scoreLoop items 100 with
      | .error e => .error e
      | .ok s1 =>
          match complexityLoop blocks with
          | .error e => .error e
          | .ok pen => .ok (max 0 (min 100 (s1 - pen)))

/-- The score of an `EvaluationResult`: a number, or the sentinel
`SCORE_NOT_AVAILABLE = "N/A"`. -/
inductive ScoreVal where
  | int (n : Int)
  | notAvailable
deriving Repr, DecidableEq

/-- The result dictionary of `Evaluator.evaluate` /
`Evaluator._error_result`.  The seven fields `file` … `
maintainability_analysis` are present in both shapes; `parse_error` is
present exactly on pipeline-completion results and `error` exactly on
error results, which `evalKeys` below makes explicit. -/
structure EvalResult where
  file : String
  language : String
  score : ScoreVal
  violations : Json
  summary : Json
  reliability_analysis : Json
  maintainability_analysis : Json
  parse_error : Option Bool
  error : Option String
deriving Repr

/-- The dictionary keys shared by every result shape, in insertion
order. -/
def commonKeys : List String :=
  ["file", "language", "score", "violations", "summary",
   "reliability_analysis", "maintainability_analysis"]

/-- The key set (in Python dict insertion order) of a result
dictionary: the seven common keys, then `parse_error` when present,
then `error` when present. -/
def evalKeys (r : EvalResult) : List String :=
  commonKeys
    ++ (if r.parse_error.isSome then ["parse_error"] else [])
    ++ (if r.error.isSome then ["error"] else [])

/-- Embedding of `Evaluator._error_result`. -/
def errorResult (filePath message : String) : EvalResult :=
  { file := filePath
    language := "unknown"
    score := .int 0
    violations := .arr []
    summary := .str message
    reliability_analysis := .str message
    maintainability_analysis := .str ""
    parse_error := none
    error := some message }

/-- `Path(path).name`: the final path component — the characters after
the last slash, after discarding trailing slashes (as `pathlib` does). -/
def pathName (path : String) : String :=
  let cs := rstripBy (fun c => c = '/') path.toList
  ((cs.reverse.takeWhile (fun c => ¬ c = '/')).reverse).asString

/-- `Path(path).suffix`: the extension of the name including the dot,
empty when the name has no interior dot (`pathlib` excludes a leading
dot, as in hidden files, and a trailing dot). -/
def pathSuffix (path : String) : String :=
  let cs := (pathName path).toList
  let revAfter := cs.reverse.takeWhile (fun c => ¬ c = '.')
  if revAfter.length = cs.length then ""
  else
    let i := cs.length - 1 - revAfter.length
    if 0 < i ∧ i < cs.length - 1
    then ('.' :: revAfter.reverse).asString
    else ""

/-- Embedding of `detect_profile` composed with `profile.name`: the
lower-cased suffix `.py` maps to the Python profile (named `Python`),
`.cs` to the C# profile (named `C#`), anything else to `None`. -/
def detectLanguage (path : String) : Option String :=
  let ext := pyLower (pathSuffix path)
  if ext = ".py" then some "Python"
  else if ext = ".cs" then some "C#"
  else none

/-- The environment of one `evaluate` call: everything the pipeline
obtains from outside repository code, passed explicitly.
`fileExists` is `Path(file_path).exists()`; `content` is
`path.read_text(...)`; `blocks` is the complexity-block list of the
tool report (`tools["radon"]["blocks"]` resp.
`tools["complexity"]["blocks"]` — the only part of `run_tools` output
that reaches the returned record, everything else only feeds prompt
text); `detectiveResponse` / `judgeResponse` are the `chat` results
for the two agents and `refinerChat n` the result of the `n`-th
Refiner call (`.error` = `RuntimeError` after exhausted retries);
`loads` is the abstract `json.loads`. -/
structure Env where
  fileExists : Bool
  content : String
  blocks : List Json
  detectiveResponse : Except String String
  judgeResponse : Except String String
  refinerChat : Nat → Except String String
  loads : String → Except String Json

/-- Embedding of `Evaluator.evaluate`: precondition checks (missing
file, unsupported extension, empty content), the Detective call and its
silently-degrading list parse, the Judge call, the Judge parse with the
one-shot Refiner repair, then the deterministic scoring (skipped with
the `N/A` sentinel when the repair failed), assembled into the result
record.  An `AttributeError` raised inside the Judge parse, or a
`TypeError`/`AttributeError` raised inside scoring, propagates out of
`evaluate` (there is no enclosing handler in the source). -/
def evaluate (env : Env) (filePath : String) : Except PyExc EvalResult :=
  match env.fileExists with
  | false => .ok (errorResult filePath "File not found.")
  | true =>
    match detectLanguage filePath with
    | none => .ok (errorResult filePath
        ("Unsupported file type: '" ++ pathSuffix filePath ++ "'."))
    | some langName =>
        if pyStrip env.content = "" then
          .ok (errorResult filePath "File is empty.")
        else
          match env.detectiveResponse with
          | .error exc =>
              .ok (errorResult filePath ("LLM error (Detective): " ++ exc))
          | .ok detectiveResponse =>
              let _potentialIssues := parseJsonList env.loads detectiveResponse
              match env.judgeResponse with
              | .error exc =>
                  .ok (errorResult filePath ("LLM error (Judge): " ++ exc))
              | .ok judgeResponse =>
                  match parseJudgeWithRefiner env.loads env.refinerChat
                      judgeResponse with
                  | .error e => .error e
                  | .ok (verifiedData, parseError) =>
                      match (if parseError then .ok ScoreVal.notAvailable
                        else
                          match pyCalcScore verifiedData.verified_violations
                              env.blocks with
                          | .error e => .error e
                          | .ok n => .ok (ScoreVal.int n) :
                            Except PyExc ScoreVal) with
                      | .error e => .error e
                      | .ok finalScore =>
                          .ok { file := filePath
                                language := langName
                                score := finalScore
                                violations := verifiedData.verified_violations
                                summary := verifiedData.analysis_summary
                                reliability_analysis :=
                                  verifiedData.analysis_summary
                                maintainability_analysis := .str ""
                                parse_error := some parseError
                                error := none }

/-- A `json.loads` model sufficient for the concrete counterexample
environments: parses `[]` and `{}`, reports a decode error on
everything else. -/
def demoLoads : String → Except String Json :=
  fun s =>
    if s = "[]" then .ok (.arr [])
    else if s = "{}" then .ok (.obj [])
    else .error "Expecting value: line 1 column 1 (char 0)"

/-- An environment whose Judge response is `[]`: syntactically valid
JSON whose top-level value is a list, not an object. -/
def envJudgeList : Env :=
  { fileExists := true
    content := "x = 1\n"
    blocks := []
    detectiveResponse := .ok "[]"
    judgeResponse := .ok "[]"
    refinerChat := fun _ => .ok "{}"
    loads := demoLoads }

/-- An environment in which every step succeeds: the Judge answers the
empty object, which parses to no violations and an empty summary. -/
def envHappy : Env :=
  { fileExists := true
    content := "x = 1\n"
    blocks := []
    detectiveResponse := .ok "[]"
    judgeResponse := .ok "{}"
    refinerChat := fun _ => .ok "{}"
    loads := demoLoads }

/-- An environment whose file does not exist. -/
def envMissingFile : Env :=
  { fileExists := false
    content := ""
    blocks := []
    detectiveResponse := .ok "[]"
    judgeResponse := .ok "{}"
    refinerChat := fun _ => .ok "{}"
    loads := demoLoads }

/-- The result `evaluate` produces in `envHappy`. -/
def happyResult : EvalResult :=
  { file := "a.py"
    language := "Python"
    score := .int 100
    violations := .arr []
    summary := .str ""
    reliability_analysis := .str ""
    maintainability_analysis := .str ""
    parse_error := some false
    error := none }

/-! ## Supporting lemmas -/

lemma foldl_scoreStep (l : List Violation) (a : Int) :
    l.foldl
      (fun acc v =>
        let sev := normalizeSeverity (v.severity.getD "")
        if sev = "Critical" then acc - 15
        else if sev = "Major" then acc - 7
        else if sev = "Minor" then acc - 2
        else acc) a = a - (l.map sevPenalty).sum := by
  induction l generalizing a with
  | nil => simp
  | cons v t ih =>
      simp only [List.foldl_cons, List.map_cons, List.sum_cons, ih]
      have hstep :
          (let sev := normalizeSeverity (v.severity.getD "")
            if sev = "Critical" then a - 15
            else if sev = "Major" then a - 7
            else if sev = "Minor" then a - 2
            else a) = a - sevPenalty v := by
        unfold sevPenalty
        dsimp only
        split_ifs <;> omega
      rw [hstep]
      ring

lemma calculateScore_eq_clamp_rawScore (vs : List Violation) (blocks : List Int) :
    calculateScore vs blocks = max 0 (min 100 (rawScore vs blocks)) := by
  unfold calculateScore rawScore
  rw [foldl_scoreStep]
  split_ifs <;> ring_nf

lemma map_sevPenalty_sum (l : List Violation) :
    (l.map sevPenalty).sum =
      15 * (countSev "Critical" l : Int) + 7 * (countSev "Major" l : Int)
        + 2 * (countSev "Minor" l : Int) := by
  induction l with
  | nil => simp [countSev]
  | cons v t ih =>
      simp only [List.map_cons, List.sum_cons, ih, countSev, List.countP_cons]
      by_cases h1 : normalizeSeverity (v.severity.getD "") = "Critical"
      · simp [sevPenalty, h1]
        ring
      · by_cases h2 : normalizeSeverity (v.severity.getD "") = "Major"
        · simp [sevPenalty, h1, h2]
          ring
        · by_cases h3 : normalizeSeverity (v.severity.getD "") = "Minor"
          · simp [sevPenalty, h1, h2, h3]
            ring
          · simp [sevPenalty, h1, h2, h3]

section CleaningLemmas

lemma removeFences_le_two (l : List Char) (h : l.length ≤ 2) :
    removeFences l = l := by
  rcases l with _ | ⟨a, _ | ⟨b, _ | ⟨c, r⟩⟩⟩ <;> simp_all [removeFences]

lemma removeFences_cons_ne (c : Char) (rest : List Char) (h : ¬ c = btick) :
    removeFences (c :: rest) = c :: removeFences rest := by
  rcases rest with _ | ⟨a, _ | ⟨b, _ | ⟨d, _ | ⟨e, _ | ⟨f, _ | ⟨g, r⟩⟩⟩⟩⟩⟩ <;>
    simp [removeFences, h]

lemma removeFences_cons₃ (c1 c2 c3 : Char) (rest : List Char)
    (h : ¬ (c1 = btick ∧ c2 = btick ∧ c3 = btick)) :
    removeFences (c1 :: c2 :: c3 :: rest) = c1 :: removeFences (c2 :: c3 :: rest) := by
  rcases rest with _ | ⟨a, _ | ⟨b, _ | ⟨d, _ | ⟨e, r⟩⟩⟩⟩ <;>
    simp [removeFences, h]

lemma hasTriple_short (l : List Char) (h : l.length ≤ 2) :
    hasTriple l = false := by
  rcases l with _ | ⟨a, _ | ⟨b, _ | ⟨c, r⟩⟩⟩ <;> simp_all [hasTriple]

lemma hasTriple_tail (c : Char) (t : List Char) (h : hasTriple (c :: t) = false) :
    hasTriple t = false := by
  rcases t with _ | ⟨a, _ | ⟨b, r⟩⟩
  · rfl
  · rfl
  · simp only [hasTriple, Bool.or_eq_false_iff] at h
    exact h.2

/-- `c :: t` is fence-free iff `t` is fence-free and no fence starts at
the new head. -/
lemma hasTriple_cons_iff (c : Char) (t : List Char) :
    hasTriple (c :: t) = false ↔
      hasTriple t = false ∧ ¬ (c = btick ∧ t.take 2 = [btick, btick]) := by
  rcases t with _ | ⟨a, _ | ⟨b, r⟩⟩
  · simp [hasTriple]
  · simp [hasTriple, List.take]
  · simp only [hasTriple, Bool.or_eq_false_iff, List.take]
    constructor
    · rintro ⟨h1, h2⟩
      refine ⟨h2, ?_⟩
      rintro ⟨hc, hab⟩
      simp only [List.cons.injEq, and_true] at hab
      simp [hc, hab.1, hab.2] at h1
    · rintro ⟨h2, h1⟩
      refine ⟨?_, h2⟩
      simp only [Bool.and_eq_false_iff, decide_eq_false_iff_not]
      by_contra hcon
      push_neg at hcon
      obtain ⟨⟨hc, ha⟩, hb⟩ := hcon
      exact h1 ⟨hc, by simp [ha, hb]⟩

lemma removeFences_no_bb_head (c2 c3 : Char) (s : List Char)
    (h : ¬ (c2 = btick ∧ c3 = btick)) :
    (removeFences (c2 :: c3 :: s)).take 2 ≠ [btick, btick] := by
  by_cases h2 : c2 = btick
  · have h3 : ¬ c3 = btick := fun hc => h ⟨h2, hc⟩
    subst h2
    rcases s with _ | ⟨d, s'⟩
    · rw [removeFences_le_two _ (by simp)]
      simpa [List.take] using h3
    · rw [removeFences_cons₃ _ _ _ _ (by tauto), removeFences_cons_ne _ _ h3]
      simpa [List.take] using h3
  · rw [removeFences_cons_ne _ _ h2]
    simpa [List.take] using fun hc => absurd hc h2

/-- The output of the fence-removal substitution never contains a
code-fence marker: removing every occurrence of three backticks
(optionally followed by `json`) cannot create a new run of three
backticks. -/
lemma hasTriple_removeFences (l : List Char) :
    hasTriple (removeFences l) = false := by
  induction l using removeFences.induct with
  | case1 => rfl
  | case2 c1 c2 c3 c4 c5 c6 c7 rest h1 h2 ih =>
      obtain ⟨e1, e2, e3⟩ := h1
      obtain ⟨e4, e5, e6, e7⟩ := h2
      subst e1; subst e2; subst e3; subst e4; subst e5; subst e6; subst e7
      simpa [removeFences] using ih
  | case3 c1 c2 c3 c4 c5 c6 c7 rest h1 h2 ih =>
      obtain ⟨e1, e2, e3⟩ := h1
      subst e1; subst e2; subst e3
      simpa [removeFences, h2] using ih
  | case4 c1 c2 c3 c4 c5 c6 c7 rest h ih =>
      rw [removeFences_cons₃ _ _ _ _ h, hasTriple_cons_iff]
      refine ⟨ih, ?_⟩
      rintro ⟨hc1, htake⟩
      exact removeFences_no_bb_head c2 c3 _
        (fun hcc => h ⟨hc1, hcc.1, hcc.2⟩) htake
  | case5 c1 c2 c3 rest hshape h1 ih =>
      obtain ⟨e1, e2, e3⟩ := h1
      subst e1; subst e2; subst e3
      rcases rest with _ | ⟨a, _ | ⟨b, _ | ⟨c, _ | ⟨d, r⟩⟩⟩⟩ <;>
        first
          | simpa [removeFences] using ih
          | exact (hshape _ _ _ _ _ rfl).elim
  | case6 c1 c2 c3 rest hshape h ih =>
      rw [removeFences_cons₃ _ _ _ _ h, hasTriple_cons_iff]
      refine ⟨ih, ?_⟩
      rintro ⟨hc1, htake⟩
      exact removeFences_no_bb_head c2 c3 _
        (fun hcc => h ⟨hc1, hcc.1, hcc.2⟩) htake
  | case7 c rest hshape1 hshape2 ih =>
      rcases rest with _ | ⟨a, _ | ⟨b, r⟩⟩
      · rw [removeFences_le_two _ (by simp)]
        exact hasTriple_short _ (by simp)
      · rw [removeFences_le_two _ (by simp)]
        exact hasTriple_short _ (by simp)
      · exact absurd rfl (hshape2 a b r)

/-- On a fence-free list the substitution is the identity. -/
lemma removeFences_of_hasTriple_false (l : List Char)
    (h : hasTriple l = false) : removeFences l = l := by
  induction l using removeFences.induct with
  | case1 => rfl
  | case2 c1 c2 c3 c4 c5 c6 c7 rest h1 h2 ih =>
      obtain ⟨e1, e2, e3⟩ := h1
      subst e1; subst e2; subst e3
      simp [hasTriple] at h
  | case3 c1 c2 c3 c4 c5 c6 c7 rest h1 h2 ih =>
      obtain ⟨e1, e2, e3⟩ := h1
      subst e1; subst e2; subst e3
      simp [hasTriple] at h
  | case4 c1 c2 c3 c4 c5 c6 c7 rest hne ih =>
      rw [removeFences_cons₃ _ _ _ _ hne, ih (hasTriple_tail _ _ h)]
  | case5 c1 c2 c3 rest hshape h1 ih =>
      obtain ⟨e1, e2, e3⟩ := h1
      subst e1; subst e2; subst e3
      simp [hasTriple] at h
  | case6 c1 c2 c3 rest hshape hne ih =>
      rw [removeFences_cons₃ _ _ _ _ hne, ih (hasTriple_tail _ _ h)]
  | case7 c rest hshape1 hshape2 ih =>
      rcases rest with _ | ⟨a, _ | ⟨b, r⟩⟩
      · rfl
      · rw [removeFences_le_two _ (by simp)]
      · exact absurd rfl (hshape2 a b r)

/-- Fence removal preserves a last character that is neither a backtick
nor the letter `n` (such a character can never be part of a removed
occurrence that reaches the end of the string). -/
lemma removeFences_getLast? (l : List Char) (c : Char)
    (hlast : l.getLast? = some c) (hb : ¬ c = btick) (hn : ¬ c = 'n') :
    (removeFences l).getLast? = some c := by
  induction l using removeFences.induct with
  | case1 => simp at hlast
  | case2 c1 c2 c3 c4 c5 c6 c7 rest h1 h2 ih =>
      obtain ⟨e1, e2, e3⟩ := h1
      obtain ⟨e4, e5, e6, e7⟩ := h2
      subst e1; subst e2; subst e3; subst e4; subst e5; subst e6; subst e7
      rcases rest with _ | ⟨a, r⟩
      · simp only [List.getLast?_cons_cons, List.getLast?_singleton] at hlast
        exact absurd (Option.some_inj.mp hlast).symm hn
      · simp only [List.getLast?_cons_cons] at hlast ⊢
        rw [show removeFences
            (btick :: btick :: btick :: 'j' :: 's' :: 'o' :: 'n' :: a :: r)
            = removeFences (a :: r) by simp [removeFences]]
        exact ih hlast
  | case3 c1 c2 c3 c4 c5 c6 c7 rest h1 h2 ih =>
      obtain ⟨e1, e2, e3⟩ := h1
      subst e1; subst e2; subst e3
      simp only [List.getLast?_cons_cons] at hlast ⊢
      rw [show removeFences
          (btick :: btick :: btick :: c4 :: c5 :: c6 :: c7 :: rest)
          = removeFences (c4 :: c5 :: c6 :: c7 :: rest) by simp [removeFences, h2]]
      exact ih hlast
  | case4 c1 c2 c3 c4 c5 c6 c7 rest hne ih =>
      rw [removeFences_cons₃ _ _ _ _ hne]
      simp only [List.getLast?_cons_cons] at hlast ⊢
      have h := ih hlast
      have hne2 : removeFences (c2 :: c3 :: c4 :: c5 :: c6 :: c7 :: rest) ≠ [] := by
        intro hnil
        rw [hnil] at h
        simp at h
      rcases hx : removeFences (c2 :: c3 :: c4 :: c5 :: c6 :: c7 :: rest) with _ | ⟨a, r⟩
      · exact absurd hx hne2
      · rw [hx] at h
        rw [List.getLast?_cons_cons]
        exact h
  | case5 c1 c2 c3 rest hshape h1 ih =>
      obtain ⟨e1, e2, e3⟩ := h1
      subst e1; subst e2; subst e3
      rcases rest with _ | ⟨a, r⟩
      · simp only [List.getLast?_cons_cons, List.getLast?_singleton] at hlast
        exact absurd (Option.some_inj.mp hlast).symm hb
      · simp only [List.getLast?_cons_cons] at hlast ⊢
        rw [show removeFences (btick :: btick :: btick :: a :: r)
            = removeFences (a :: r) by
          rcases r with _ | ⟨x, _ | ⟨y, _ | ⟨z, w⟩⟩⟩
          · simp [removeFences]
          · simp [removeFences]
          · simp [removeFences]
          · exact (hshape _ _ _ _ _ rfl).elim]
        exact ih hlast
  | case6 c1 c2 c3 rest hshape hne ih =>
      rw [removeFences_cons₃ _ _ _ _ hne]
      simp only [List.getLast?_cons_cons] at hlast ⊢
      have h := ih hlast
      have hne2 : removeFences (c2 :: c3 :: rest) ≠ [] := by
        intro hnil
        rw [hnil] at h
        simp at h
      rcases hx : removeFences (c2 :: c3 :: rest) with _ | ⟨a, r⟩
      · exact absurd hx hne2
      · rw [hx] at h
        rw [List.getLast?_cons_cons]
        exact h
  | case7 c rest hshape1 hshape2 ih =>
      rcases rest with _ | ⟨a, _ | ⟨b, r⟩⟩
      · rw [removeFences_le_two _ (by simp)]
        exact hlast
      · rw [removeFences_le_two _ (by simp)]
        exact hlast
      · exact absurd rfl (hshape2 a b r)

lemma dropWhile_getLast? (p : Char → Bool) (l : List Char) (c : Char)
    (h : l.getLast? = some c) (hp : p c = false) :
    (l.dropWhile p).getLast? = some c := by
  induction l with
  | nil => simp at h
  | cons a t ih =>
      rcases t with _ | ⟨b, t2⟩
      · simp only [List.getLast?_singleton] at h
        obtain rfl : a = c := Option.some_inj.mp h
        simp [List.dropWhile_cons, hp]
      · rw [List.getLast?_cons_cons] at h
        rw [List.dropWhile_cons]
        by_cases ha : p a = true
        · rw [if_pos ha]
          exact ih h
        · rw [if_neg ha, List.getLast?_cons_cons]
          exact h

lemma rstripBy_noop (p : Char → Bool) (l : List Char) (c : Char)
    (h : l.getLast? = some c) (hp : p c = false) :
    rstripBy p l = l := by
  have h2 : l.reverse.dropWhile p = l.reverse := by
    rcases hr : l.reverse with _ | ⟨a, t⟩
    · rfl
    · have hh := List.head?_reverse l
      rw [hr, h] at hh
      simp only [List.head?_cons] at hh
      obtain rfl : a = c := Option.some_inj.mp hh
      rw [List.dropWhile_cons, hp]
      simp
  unfold rstripBy
  rw [h2, List.reverse_reverse]

lemma rstripBy_prefixOf (p : Char → Bool) (l : List Char) :
    rstripBy p l <+: l := by
  unfold rstripBy
  have hsuf : l.reverse.dropWhile p <:+ l.reverse := List.dropWhile_suffix p
  have h : (l.reverse.dropWhile p).reverse <+: l.reverse.reverse :=
    List.reverse_prefix.mpr hsuf
  rwa [List.reverse_reverse] at h

lemma hasTriple_iff_infix (l : List Char) :
    hasTriple l = true ↔ [btick, btick, btick] <:+: l := by
  induction l with
  | nil =>
      simp only [hasTriple]
      constructor
      · intro h
        cases h
      · intro h
        have := h.length_le
        simp at this
  | cons a t ih =>
      rcases t with _ | ⟨b, _ | ⟨c, r⟩⟩
      · simp only [hasTriple]
        constructor
        · intro h
          cases h
        · intro h
          have := h.length_le
          simp at this
      · simp only [hasTriple]
        constructor
        · intro h
          cases h
        · intro h
          have := h.length_le
          simp at this
      · rw [List.infix_cons_iff]
        simp only [hasTriple, Bool.or_eq_true, Bool.and_eq_true,
          decide_eq_true_eq] at ih ⊢
        constructor
        · rintro (⟨⟨h1, h2⟩, h3⟩ | h)
          · subst h1; subst h2; subst h3
            exact Or.inl (by
              rw [List.cons_prefix_cons]
              exact ⟨rfl, by
                rw [List.cons_prefix_cons]
                exact ⟨rfl, by
                  rw [List.cons_prefix_cons]
                  exact ⟨rfl, List.nil_prefix⟩⟩⟩)
          · exact Or.inr (ih.mp h)
        · rintro (h | h)
          · rw [List.cons_prefix_cons] at h
            obtain ⟨ha, h⟩ := h
            rw [List.cons_prefix_cons] at h
            obtain ⟨hb, h⟩ := h
            rw [List.cons_prefix_cons] at h
            obtain ⟨hc, _⟩ := h
            exact Or.inl ⟨⟨ha.symm, hb.symm⟩, hc.symm⟩
          · exact Or.inr (ih.mpr h)

lemma hasTriple_false_of_infix (t l : List Char) (h : t <:+: l)
    (hl : hasTriple l = false) : hasTriple t = false := by
  by_contra hcon
  rw [Bool.not_eq_false, hasTriple_iff_infix] at hcon
  rw [← Bool.not_eq_true, hasTriple_iff_infix] at hl
  exact hl (hcon.trans h)

lemma jsonTerminator_props (c : Char) (h : isJsonTerminator c = true) :
    ¬ c = btick ∧ ¬ c = 'n' ∧ isPyWs c = false := by
  simp only [isJsonTerminator, decide_eq_true_eq] at h
  have hws : ∀ d : Char, isPyWs d = true →
      d = ' ' ∨ d = '\t' ∨ d = '\n' ∨ d = '\r' ∨ d = '\x0b' ∨ d = '\x0c' := by
    intro d hd
    simpa [isPyWs] using hd
  rcases h with h | h | h | h | h | h
  · subst h; exact ⟨by decide, by decide, by decide⟩
  · subst h; exact ⟨by decide, by decide, by decide⟩
  · subst h; exact ⟨by decide, by decide, by decide⟩
  · refine ⟨?_, ?_, ?_⟩
    · intro e; rw [e] at h; exact absurd h (by decide)
    · intro e; rw [e] at h; exact absurd h (by decide)
    · by_contra hcon
      rw [Bool.not_eq_false] at hcon
      rcases hws c hcon with e | e | e | e | e | e <;>
        (rw [e] at h; exact absurd h (by decide))
  · subst h; exact ⟨by decide, by decide, by decide⟩
  · subst h; exact ⟨by decide, by decide, by decide⟩

/-- For an input whose last character is kept by fence removal and by
both strips, the cleaning function is left strip followed by fence
removal, and it preserves that last character. -/
lemma cleanResponseL_of_terminator (l : List Char) (c : Char)
    (hlast : l.getLast? = some c) (hterm : isJsonTerminator c = true) :
    cleanResponseL l = (removeFences l).dropWhile isPyWs ∧
      (cleanResponseL l).getLast? = some c := by
  obtain ⟨hb, hn, hws⟩ := jsonTerminator_props c hterm
  have h1 : (removeFences l).getLast? = some c :=
    removeFences_getLast? l c hlast hb hn
  have h2 : ((removeFences l).dropWhile isPyWs).getLast? = some c :=
    dropWhile_getLast? _ _ _ h1 hws
  have h3 : stripWs (removeFences l) = (removeFences l).dropWhile isPyWs := by
    unfold stripWs lstripWs
    exact rstripBy_noop _ _ _ h2 hws
  have h4 : cleanResponseL l = (removeFences l).dropWhile isPyWs := by
    unfold cleanResponseL
    rw [h3]
    exact rstripBy_noop _ _ _ h2 (by simp [hb])
  exact ⟨h4, h4 ▸ h2⟩

end CleaningLemmas

lemma sevPenalty_nonneg (v : Violation) : 0 ≤ sevPenalty v := by
  unfold sevPenalty
  dsimp only
  split_ifs <;> norm_num

lemma rawScore_cons (v : Violation) (vs : List Violation) (blocks : List Int) :
    rawScore (v :: vs) blocks = rawScore vs blocks - sevPenalty v := by
  unfold rawScore
  simp only [List.map_cons, List.sum_cons]
  ring

/-! ## Claim theorems: scoring -/

/-- C5: `calculate_score` equals the reference definition — start at
100; subtract 15 per Critical, 7 per Major, 2 per Minor violation;
subtract a single complexity penalty of 5 at most once if any analyzed
block's cyclomatic complexity exceeds the threshold 15; clamp to
[0, 100].  Consequently a list with only Minor severities (and no
over-threshold block) scores `max (100 - 2·count) 0`, and the empty
list with no over-threshold block scores exactly 100. -/
theorem calculateScore_matches_reference :
    (∀ (vs : List Violation) (blocks : List Int),
        calculateScore vs blocks = referenceScore vs blocks)
    ∧ (∀ (vs : List Violation) (blocks : List Int),
        (∀ v ∈ vs, normalizeSeverity (v.severity.getD "") = "Minor") →
        (∀ c ∈ blocks, c ≤ 15) →
        calculateScore vs blocks = max (100 - 2 * (vs.length : Int)) 0)
    ∧ (∀ blocks : List Int, (∀ c ∈ blocks, c ≤ 15) →
        calculateScore [] blocks = 100) := by
  have hnoBlock : ∀ blocks : List Int, (∀ c ∈ blocks, c ≤ 15) →
      (blocks.any (fun c => 15 < c)) = false := by
    intro blocks h
    simp only [List.any_eq_false, decide_eq_true_eq]
    intro c hc
    exact not_lt.mpr (h c hc)
  refine ⟨?_, ?_, ?_⟩
  · intro vs blocks
    rw [calculateScore_eq_clamp_rawScore]
    unfold referenceScore rawScore
    rw [map_sevPenalty_sum]
    ring_nf
  · intro vs blocks hminor hblocks
    rw [calculateScore_eq_clamp_rawScore]
    unfold rawScore
    rw [map_sevPenalty_sum, hnoBlock blocks hblocks]
    have hc : countSev "Critical" vs = 0 := by
      unfold countSev
      rw [List.countP_eq_zero]
      intro v hv
      simp only [decide_eq_true_eq]
      rw [hminor v hv]
      decide
    have hm : countSev "Major" vs = 0 := by
      unfold countSev
      rw [List.countP_eq_zero]
      intro v hv
      simp only [decide_eq_true_eq]
      rw [hminor v hv]
      decide
    have hn : countSev "Minor" vs = vs.length := by
      unfold countSev
      rw [List.countP_eq_length]
      intro v hv
      simp only [decide_eq_true_eq]
      exact hminor v hv
    rw [hc, hm, hn]
    simp only [Nat.cast_zero, Bool.false_eq_true, if_false]
    have harith : (100 : Int) - (15 * 0 + 7 * 0 + 2 * (vs.length : Int)) - 0
        = 100 - 2 * (vs.length : Int) := by ring
    rw [harith, min_eq_right (by omega), max_comm]
  · intro blocks hblocks
    rw [calculateScore_eq_clamp_rawScore]
    unfold rawScore
    rw [hnoBlock blocks hblocks]
    simp

/-- Witness for C5 at a concrete input: two Minor violations and one
below-threshold block score `max (100 - 2·2) 0 = 96`. -/
theorem calculateScore_matches_reference_witness :
    calculateScore [⟨some "Minor"⟩, ⟨some "minor"⟩] [10]
      = max (100 - 2 * ((2 : Nat) : Int)) 0 :=
  calculateScore_matches_reference.2.1 [⟨some "Minor"⟩, ⟨some "minor"⟩] [10]
    (by decide) (by decide)

/-- C6: for all inputs `calculate_score` lands in [0, 100], and for a
fixed severity distribution it is monotonically non-increasing in the
violation count: appending any violation never increases the score. -/
theorem calculateScore_bounded_and_monotone :
    (∀ (vs : List Violation) (blocks : List Int),
        0 ≤ calculateScore vs blocks ∧ calculateScore vs blocks ≤ 100)
    ∧ (∀ (vs : List Violation) (v : Violation) (blocks : List Int),
        calculateScore (vs ++ [v]) blocks ≤ calculateScore vs blocks) := by
  constructor
  · intro vs blocks
    rw [calculateScore_eq_clamp_rawScore]
    exact ⟨le_max_left 0 _, max_le (by norm_num) (min_le_left 100 _)⟩
  · intro vs v blocks
    rw [calculateScore_eq_clamp_rawScore, calculateScore_eq_clamp_rawScore]
    apply max_le_max le_rfl
    apply min_le_min le_rfl
    unfold rawScore
    simp only [List.map_append, List.sum_append, List.map_cons, List.map_nil,
      List.sum_cons, List.sum_nil]
    have := sevPenalty_nonneg v
    omega

/-- C10: severity matching in `calculate_score` is whitespace- and
case-insensitive — a severity string whose strip+capitalize
normalisation equals "Critical" / "Major" / "Minor" incurs a penalty of
15 / 7 / 2, while a missing or null severity (modelled by `none`) or
any other string incurs no penalty at all. -/
theorem severityMatching_insensitive :
    (∀ (s : String) (vs : List Violation) (blocks : List Int),
        normalizeSeverity s = "Critical" →
        calculateScore (⟨some s⟩ :: vs) blocks
          = max 0 (min 100 (rawScore vs blocks - 15)))
    ∧ (∀ (s : String) (vs : List Violation) (blocks : List Int),
        normalizeSeverity s = "Major" →
        calculateScore (⟨some s⟩ :: vs) blocks
          = max 0 (min 100 (rawScore vs blocks - 7)))
    ∧ (∀ (s : String) (vs : List Violation) (blocks : List Int),
        normalizeSeverity s = "Minor" →
        calculateScore (⟨some s⟩ :: vs) blocks
          = max 0 (min 100 (rawScore vs blocks - 2)))
    ∧ (∀ (s : String) (vs : List Violation) (blocks : List Int),
        normalizeSeverity s ≠ "Critical" → normalizeSeverity s ≠ "Major" →
        normalizeSeverity s ≠ "Minor" →
        calculateScore (⟨some s⟩ :: vs) blocks = calculateScore vs blocks)
    ∧ (∀ (vs : List Violation) (blocks : List Int),
        calculateScore (⟨none⟩ :: vs) blocks = calculateScore vs blocks) := by
  have hpen : ∀ (s : String), sevPenalty ⟨some s⟩ =
      if normalizeSeverity s = "Critical" then 15
      else if normalizeSeverity s = "Major" then 7
      else if normalizeSeverity s = "Minor" then 2
      else 0 := by
    intro s
    unfold sevPenalty
    rfl
  refine ⟨?_, ?_, ?_, ?_, ?_⟩
  · intro s vs blocks h
    rw [calculateScore_eq_clamp_rawScore, rawScore_cons, hpen, h]
    norm_num
  · intro s vs blocks h
    rw [calculateScore_eq_clamp_rawScore, rawScore_cons, hpen, h]
    simp only [String.reduceEq, reduceIte]
  · intro s vs blocks h
    rw [calculateScore_eq_clamp_rawScore, rawScore_cons, hpen, h]
    simp only [String.reduceEq, reduceIte]
  · intro s vs blocks h1 h2 h3
    rw [calculateScore_eq_clamp_rawScore, rawScore_cons, hpen,
      if_neg h1, if_neg h2, if_neg h3, calculateScore_eq_clamp_rawScore]
    norm_num
  · intro vs blocks
    rw [calculateScore_eq_clamp_rawScore, rawScore_cons,
      calculateScore_eq_clamp_rawScore]
    have : sevPenalty ⟨none⟩ = 0 := by decide
    rw [this]
    norm_num

/-- Witness for C10 at a concrete input: the severity string
`" MAJOR "` (surrounding whitespace, upper case) incurs the Major
penalty of 7. -/
theorem severityMatching_insensitive_witness :
    calculateScore [⟨some " MAJOR "⟩] [] = max 0 (min 100 (rawScore [] [] - 7)) :=
  severityMatching_insensitive.2.1 " MAJOR " [] [] (by decide)

lemma filterPylintMessages_keeps (score : Json) (msgs : List Json) :
    ∀ (out : List Json), filterPylintMessages score msgs = .ok out →
      ∀ m ∈ msgs, ∀ (idStr bucket : String),
        msgIdOf m = .ok idStr → idStr ∉ ignoredMessageIds →
        typeBucket m = .ok bucket → (bucket = "fatal" ∨ bucket = "error") →
        m ∈ out := by
  induction msgs with
  | nil =>
      intro out h m hm
      simp at hm
  | cons m0 rest ih =>
      intro out h m hm idStr bucket hid hnid hb hfb
      rw [filterPylintMessages] at h
      rcases List.mem_cons.mp hm with rfl | hm
      · rw [hid] at h
        dsimp only at h
        rw [if_neg hnid, hb] at h
        dsimp only at h
        rw [if_pos (by tauto)] at h
        cases hf : filterPylintMessages score rest with
        | error e => rw [hf] at h; simp [Except.map] at h
        | ok tail =>
            rw [hf] at h
            simp only [Except.map, Except.ok.injEq] at h
            rw [← h]
            exact List.mem_cons_self m tail
      · cases hmx : msgIdOf m0 with
        | error e =>
            rw [hmx] at h
            simp at h
        | ok id0 =>
            rw [hmx] at h
            dsimp only at h
            by_cases hig : id0 ∈ ignoredMessageIds
            · rw [if_pos hig] at h
              exact ih out h m hm idStr bucket hid hnid hb hfb
            · rw [if_neg hig] at h
              cases hbx : typeBucket m0 with
              | error e =>
                  rw [hbx] at h
                  simp at h
              | ok b0 =>
                  rw [hbx] at h
                  dsimp only at h
                  split_ifs at h <;>
                    first
                      | (cases hf : filterPylintMessages score rest with
                         | error e =>
                             rw [hf] at h
                             simp [Except.map] at h
                         | ok tail =>
                             rw [hf] at h
                             simp only [Except.map, Except.ok.injEq] at h
                             rw [← h]
                             exact List.mem_cons_of_mem m0
                               (ih tail hf m hm idStr bucket hid hnid hb hfb))
                      | exact ih out h m hm idStr bucket hid hnid hb hfb

lemma filterBuildList_keeps (ds : List Json) :
    ∀ (out : List Json), filterBuildList ds = .ok out →
      ∀ d ∈ ds, keepDiag d = .ok true → d ∈ out := by
  induction ds with
  | nil =>
      intro out h d hd
      simp at hd
  | cons d0 rest ih =>
      intro out h d hd hkeep
      rw [filterBuildList] at h
      rcases List.mem_cons.mp hd with rfl | hd
      · rw [hkeep] at h
        dsimp only at h
        cases hf : filterBuildList rest with
        | error e => rw [hf] at h; simp [Except.map] at h
        | ok tail =>
            rw [hf] at h
            simp only [Except.map, Except.ok.injEq, if_true] at h
            rw [← h]
            simp
      · cases hkx : keepDiag d0 with
        | error e =>
            rw [hkx] at h
            simp at h
        | ok keep0 =>
            rw [hkx] at h
            dsimp only at h
            cases hf : filterBuildList rest with
            | error e => rw [hf] at h; simp [Except.map] at h
            | ok tail =>
                rw [hf] at h
                simp only [Except.map, Except.ok.injEq] at h
                have hmem : d ∈ tail := ih tail hf d hd hkeep
                rw [← h]
                cases keep0
                · simpa using hmem
                · simp only [if_true]
                  exact List.mem_cons_of_mem d0 hmem

lemma parseJudgeWithRefiner_true_shape (loads : String → Except String Json)
    (refinerChat : Nat → Except String String) (raw : String) (vd : JudgeData)
    (h : parseJudgeWithRefiner loads refinerChat raw = .ok (vd, true)) :
    vd.verified_violations = .arr []
      ∧ ∃ s : String, vd.analysis_summary = .str s := by
  unfold parseJudgeWithRefiner at h
  cases htp : tryParseJudgeJson loads (cleanJsonResponse raw) with
  | error e => rw [htp] at h; exact absurd h (by simp)
  | ok pr =>
      obtain ⟨od, oe⟩ := pr
      cases od with
      | some data => rw [htp] at h; simp at h
      | none =>
          rw [htp] at h
          dsimp only at h
          cases hrf : refinerChat 0 with
          | error exc =>
              rw [hrf] at h
              simp only [Except.ok.injEq, Prod.mk.injEq] at h
              obtain ⟨hvd, -⟩ := h
              rw [← hvd]
              exact ⟨rfl, _, rfl⟩
          | ok rr =>
              rw [hrf] at h
              dsimp only at h
              cases htp2 : tryParseJudgeJson loads (cleanJsonResponse rr) with
              | error e => rw [htp2] at h; exact absurd h (by simp)
              | ok pr2 =>
                  obtain ⟨od2, oe2⟩ := pr2
                  cases od2 with
                  | some d2 => rw [htp2] at h; simp at h
                  | none =>
                      rw [htp2] at h
                      simp only [Except.ok.injEq, Prod.mk.injEq] at h
                      obtain ⟨hvd, -⟩ := h
                      rw [← hvd]
                      exact ⟨rfl, _, rfl⟩

lemma parseJudgeWithRefiner_first_only (loads : String → Except String Json)
    (f g : Nat → Except String String) (raw : String) (h : f 0 = g 0) :
    parseJudgeWithRefiner loads f raw = parseJudgeWithRefiner loads g raw := by
  unfold parseJudgeWithRefiner
  rw [h]

/-! ## Claim theorems: the evaluate pipeline -/

/-- C1 (evidence of the code bug): with every precondition satisfied
and a Judge response of `[]` — syntactically valid JSON whose top-level
value is a list — `evaluate` does not trigger the Refiner repair
protocol but raises an uncaught `AttributeError`: `json.loads`
succeeds, and `data.get("verified_violations", [])` on the resulting
list raises `AttributeError`, which the
`except (json.JSONDecodeError, ValueError, TypeError)` clause of
`_try_parse_judge_json` does not catch. -/
theorem evaluate_raises_on_nonobject_judge_json :
    evaluate envJudgeList "a.py"
      = .error (.attributeError "'list' object has no attribute 'get'") := rfl

/-- C3: when the Judge response fails to decode as JSON, and the
single Refiner call either fails with a transport error or returns
text that also fails to decode, `evaluate` returns a record with the
`N/A` score sentinel, an empty violation list, `parse_error = true`,
and a summary naming the original decode failure (and, when the Refiner
text was obtained, the repair failure too); moreover the outcome
depends only on the first Refiner response, so no second repair attempt
is ever consulted. -/
theorem refinerFailure_terminal :
    ∀ (env : Env) (path lang dr jr e1 : String),
      env.fileExists = true →
      detectLanguage path = some lang →
      ¬ pyStrip env.content = "" →
      env.detectiveResponse = .ok dr →
      env.judgeResponse = .ok jr →
      env.loads (cleanJsonResponse jr) = .error e1 →
      ((∀ exc : String, env.refinerChat 0 = .error exc →
          evaluate env path = .ok
            { file := path
              language := lang
              score := .notAvailable
              violations := .arr []
              summary := .str ("JSON parse error: " ++ e1
                ++ ". Refiner call failed.")
              reliability_analysis := .str ("JSON parse error: " ++ e1
                ++ ". Refiner call failed.")
              maintainability_analysis := .str ""
              parse_error := some true
              error := none })
        ∧ (∀ rr e2 : String, env.refinerChat 0 = .ok rr →
            env.loads (cleanJsonResponse rr) = .error e2 →
            evaluate env path = .ok
              { file := path
                language := lang
                score := .notAvailable
                violations := .arr []
                summary := .str ("JSON parse error: " ++ e1
                  ++ ". Refiner failed: " ++ e2)
                reliability_analysis := .str ("JSON parse error: " ++ e1
                  ++ ". Refiner failed: " ++ e2)
                maintainability_analysis := .str ""
                parse_error := some true
                error := none })
        ∧ (∀ f : Nat → Except String String, f 0 = env.refinerChat 0 →
            evaluate { env with refinerChat := f } path
              = evaluate env path)) := by
  intro env path lang dr jr e1 hex hdet hne hdr hjr hload
  refine ⟨?_, ?_, ?_⟩
  · intro exc hrf
    unfold evaluate parseJudgeWithRefiner tryParseJudgeJson
    simp only [hex, hdet, hdr, hjr, hload, hrf, if_neg hne, Option.getD_some,
      if_true]
  · intro rr e2 hrf hload2
    unfold evaluate parseJudgeWithRefiner tryParseJudgeJson
    simp only [hex, hdet, hdr, hjr, hload, hrf, hload2, if_neg hne,
      Option.getD_some, if_true]
  · intro f hf
    unfold evaluate
    dsimp only
    simp only [show ∀ raw, parseJudgeWithRefiner env.loads f raw
        = parseJudgeWithRefiner env.loads env.refinerChat raw
      from fun raw =>
        parseJudgeWithRefiner_first_only env.loads f env.refinerChat raw hf]

/-- Witness for C3 at a concrete input: the Judge answers `oops`
(invalid JSON) and the Refiner call fails with a transport error; the
result carries the `N/A` sentinel, no violations, `parse_error = true`
and the double-failure summary. -/
theorem refinerFailure_terminal_witness :
    evaluate { envHappy with
      judgeResponse := .ok "oops"
      refinerChat := fun _ => .error "LLM API failed after 3 retries." } "a.py"
      = .ok
        { file := "a.py"
          language := "Python"
          score := .notAvailable
          violations := .arr []
          summary := .str ("JSON parse error: "
            ++ "Expecting value: line 1 column 1 (char 0)"
            ++ ". Refiner call failed.")
          reliability_analysis := .str ("JSON parse error: "
            ++ "Expecting value: line 1 column 1 (char 0)"
            ++ ". Refiner call failed.")
          maintainability_analysis := .str ""
          parse_error := some true
          error := none } :=
  (refinerFailure_terminal
    { envHappy with
      judgeResponse := .ok "oops"
      refinerChat := fun _ => .error "LLM API failed after 3 retries." }
    "a.py" "Python" "[]" "oops" "Expecting value: line 1 column 1 (char 0)"
    rfl rfl (by decide) rfl rfl rfl).1
    "LLM API failed after 3 retries." rfl

/-- C4: each failed precondition short-circuits `evaluate` to
`_error_result` — file missing, unsupported extension, and
whitespace-empty content — with score 0, empty violations, language
`unknown`, and the human-readable message in `summary`/`error`.  The
equations hold for every environment and the right-hand sides mention
neither the tool report nor any model response, so no tool invocation
and no model call can influence (or be required for) these outcomes. -/
theorem evaluate_precondition_short_circuit :
    (∀ (env : Env) (path : String), env.fileExists = false →
        evaluate env path = .ok (errorResult path "File not found."))
    ∧ (∀ (env : Env) (path : String), env.fileExists = true →
        detectLanguage path = none →
        evaluate env path = .ok (errorResult path
          ("Unsupported file type: '" ++ pathSuffix path ++ "'.")))
    ∧ (∀ (env : Env) (path lang : String), env.fileExists = true →
        detectLanguage path = some lang → pyStrip env.content = "" →
        evaluate env path = .ok (errorResult path "File is empty."))
    ∧ (∀ path msg : String,
        (errorResult path msg).score = .int 0
          ∧ (errorResult path msg).violations = .arr []
          ∧ (errorResult path msg).language = "unknown"
          ∧ (errorResult path msg).summary = .str msg
          ∧ (errorResult path msg).error = some msg) := by
  refine ⟨?_, ?_, ?_, ?_⟩
  · intro env path h
    unfold evaluate
    rw [h]
  · intro env path hex hdet
    unfold evaluate
    rw [hex, hdet]
  · intro env path lang hex hdet hempty
    unfold evaluate
    rw [hex, hdet]
    dsimp only
    rw [if_pos hempty]
  · intro path msg
    exact ⟨rfl, rfl, rfl, rfl, rfl⟩

/-- Witness for C4 at a concrete input: a missing file yields the
`File not found.` error result. -/
theorem evaluate_precondition_short_circuit_witness :
    evaluate envMissingFile "b.txt"
      = .ok (errorResult "b.txt" "File not found.") :=
  evaluate_precondition_short_circuit.1 envMissingFile "b.txt" rfl

/-- C7, counterexample: result records do not share one field set
across all paths.  The missing-file path returns the `_error_result`
shape, which has an `error` key and no `parse_error` key, while a
successful evaluation returns a record with a `parse_error` key and no
`error` key. -/
theorem evaluate_result_shape_differs :
    evaluate envMissingFile "a.py"
        = .ok (errorResult "a.py" "File not found.")
      ∧ "parse_error" ∉ evalKeys (errorResult "a.py" "File not found.")
      ∧ evaluate envHappy "a.py" = .ok happyResult
      ∧ "parse_error" ∈ evalKeys happyResult
      ∧ evalKeys (errorResult "a.py" "File not found.") ≠ evalKeys happyResult := by
  refine ⟨rfl, by decide, rfl, by decide, by decide⟩

/-- C7, amended: whenever `evaluate` returns (rather than raising the
uncaught exception of the Judge-parse bug), the record has the seven
common fields in both shapes, plus exactly one of `error`
(precondition/transport failures: score 0, no `parse_error` key) or
`parse_error` (completed pipeline: the `N/A` sentinel with empty
violations when `true`, a numeric score when `false`), so the three
outcomes are distinguished by field values within two fixed shapes. -/
theorem evaluate_result_shapes :
    ∀ (env : Env) (path : String) (r : EvalResult), evaluate env path = .ok r →
      (evalKeys r = commonKeys ++ ["error"]
        ∧ r.parse_error = none ∧ r.score = .int 0
        ∧ ∃ msg, r.error = some msg)
      ∨ (evalKeys r = commonKeys ++ ["parse_error"]
        ∧ r.error = none
        ∧ ((r.parse_error = some true ∧ r.score = .notAvailable
              ∧ r.violations = .arr [])
          ∨ (r.parse_error = some false ∧ ∃ n : Int, r.score = .int n))) := by
  intro env path r h
  unfold evaluate at h
  cases hfe : env.fileExists with
  | false =>
      rw [hfe] at h
      dsimp only at h
      simp only [Except.ok.injEq] at h
      subst h
      exact Or.inl ⟨by simp [evalKeys, errorResult, commonKeys], rfl, rfl, _, rfl⟩
  | true =>
      rw [hfe] at h
      dsimp only at h
      cases hdl : detectLanguage path with
      | none =>
          rw [hdl] at h
          dsimp only at h
          simp only [Except.ok.injEq] at h
          subst h
          exact Or.inl ⟨by simp [evalKeys, errorResult, commonKeys], rfl, rfl, _, rfl⟩
      | some lang =>
          rw [hdl] at h
          dsimp only at h
          by_cases hemp : pyStrip env.content = ""
          · rw [if_pos hemp] at h
            simp only [Except.ok.injEq] at h
            subst h
            exact Or.inl ⟨by simp [evalKeys, errorResult, commonKeys], rfl, rfl, _, rfl⟩
          · rw [if_neg hemp] at h
            cases hdr : env.detectiveResponse with
            | error exc =>
                rw [hdr] at h
                dsimp only at h
                simp only [Except.ok.injEq] at h
                subst h
                exact Or.inl ⟨by simp [evalKeys, errorResult, commonKeys], rfl, rfl, _, rfl⟩
            | ok dresp =>
                rw [hdr] at h
                dsimp only at h
                cases hjr : env.judgeResponse with
                | error exc =>
                    rw [hjr] at h
                    dsimp only at h
                    simp only [Except.ok.injEq] at h
                    subst h
                    exact Or.inl ⟨by simp [evalKeys, errorResult, commonKeys], rfl, rfl, _, rfl⟩
                | ok jresp =>
                    rw [hjr] at h
                    dsimp only at h
                    cases hpj : parseJudgeWithRefiner env.loads env.refinerChat jresp with
                    | error e =>
                        rw [hpj] at h
                        exact absurd h (by simp)
                    | ok pr =>
                        obtain ⟨vd, pe⟩ := pr
                        rw [hpj] at h
                        dsimp only at h
                        right
                        cases pe with
                        | true =>
                            rw [if_pos rfl] at h
                            dsimp only at h
                            simp only [Except.ok.injEq] at h
                            subst h
                            refine ⟨by simp [evalKeys, commonKeys], rfl,
                              Or.inl ⟨rfl, rfl, ?_⟩⟩
                            exact (parseJudgeWithRefiner_true_shape _ _ _ _ hpj).1
                        | false =>
                            rw [if_neg (by simp)] at h
                            cases hcalc : pyCalcScore vd.verified_violations env.blocks with
                            | error e =>
                                rw [hcalc] at h
                                exact absurd h (by simp)
                            | ok n =>
                                rw [hcalc] at h
                                dsimp only at h
                                simp only [Except.ok.injEq] at h
                                subst h
                                exact ⟨by simp [evalKeys, commonKeys], rfl,
                                  Or.inr ⟨rfl, n, rfl⟩⟩

/-- Witness for C7 (amended) at a concrete input: the missing-file
result instantiates the error shape. -/
theorem evaluate_result_shapes_witness :
    (evalKeys (errorResult "a.py" "File not found.")
        = commonKeys ++ ["error"]
      ∧ (errorResult "a.py" "File not found.").parse_error = none
      ∧ (errorResult "a.py" "File not found.").score = .int 0
      ∧ ∃ msg, (errorResult "a.py" "File not found.").error = some msg)
    ∨ (evalKeys (errorResult "a.py" "File not found.")
        = commonKeys ++ ["parse_error"]
      ∧ (errorResult "a.py" "File not found.").error = none
      ∧ (((errorResult "a.py" "File not found.").parse_error = some true
            ∧ (errorResult "a.py" "File not found.").score = .notAvailable
            ∧ (errorResult "a.py" "File not found.").violations = .arr [])
        ∨ ((errorResult "a.py" "File not found.").parse_error = some false
            ∧ ∃ n : Int, (errorResult "a.py" "File not found.").score = .int n))) :=
  evaluate_result_shapes envMissingFile "a.py"
    (errorResult "a.py" "File not found.") rfl

/-! ## Claim theorems: lint filtering -/

/-- C2, counterexample: a Pylint message whose type is `error` (the
highest severity tier short of `fatal`) but whose message id is
`C0301` is dropped by `filter_pylint_results`, because the
always-ignored id denylist is applied before the severity buckets are
consulted.  The claim requires every fatal/error-typed message to
survive regardless of its rule identifier; this one does not. -/
theorem filterPylint_drops_denylisted_error :
    typeBucket msgErrC0301 = .ok "error" ∧
      filterPylintResults ⟨.num 9, [msgErrC0301], none⟩
        = .ok ⟨.num 9, [], none⟩ :=
  ⟨rfl, rfl⟩

/-- C2, amended: `filter_pylint_results` never drops a message of the
fatal or error bucket whose message id is outside the fixed
always-ignored denylist (C0114, C0115, C0116, C0301, W0511, R0903,
R0913); the message reappears unchanged in the filtered output.
Likewise `filter_build_diagnostics` keeps every diagnostic whose id is
not the denylisted `CS1591`, regardless of severity. -/
theorem filterLint_keeps_unignored_high_severity :
    (∀ (raw out : PylintReport), filterPylintResults raw = .ok out →
        ∀ m ∈ raw.messages, ∀ (idStr bucket : String),
          msgIdOf m = .ok idStr → idStr ∉ ignoredMessageIds →
          typeBucket m = .ok bucket → (bucket = "fatal" ∨ bucket = "error") →
          m ∈ out.messages)
    ∧ (∀ (raw out : BuildReport), filterBuildDiagnostics raw = .ok out →
        ∀ d ∈ raw.diagnostics, ∀ idv : Json,
          pyGetD d "id" (.str "") = .ok idv → idv ≠ .str "CS1591" →
          d ∈ out.diagnostics) := by
  constructor
  · intro raw out h m hm idStr bucket hid hnid hb hfb
    unfold filterPylintResults at h
    cases hf : filterPylintMessages raw.score raw.messages with
    | error e => rw [hf] at h; simp at h
    | ok filtered =>
        rw [hf] at h
        simp only [Except.ok.injEq] at h
        have : m ∈ filtered :=
          filterPylintMessages_keeps raw.score raw.messages filtered hf
            m hm idStr bucket hid hnid hb hfb
        rw [← h]
        exact this
  · intro raw out h d hd idv hidv hne
    unfold filterBuildDiagnostics at h
    cases hf : filterBuildList raw.diagnostics with
    | error e => rw [hf] at h; simp at h
    | ok kept =>
        rw [hf] at h
        simp only [Except.ok.injEq] at h
        have hkeep : keepDiag d = .ok true := by
          unfold keepDiag
          rw [hidv]
          cases idv with
          | str s =>
              have : s ≠ "CS1591" := by
                intro e
                exact hne (by rw [e])
              simp [this]
          | null => rfl
          | bool b => rfl
          | num n => rfl
          | arr l => rfl
          | obj f => rfl
        have : d ∈ kept :=
          filterBuildList_keeps raw.diagnostics kept hf d hd hkeep
        rw [← h]
        exact this

/-- Witness for C2 (amended) at a concrete input: an error-typed
message with the non-denylisted id `E999` survives the Pylint filter. -/
theorem filterLint_keeps_unignored_high_severity_witness :
    filterPylintResults
        ⟨.num 9, [Json.obj [("type", .str "error"), ("message_id", .str "E999")]], none⟩
      = .ok ⟨.num 9, [Json.obj [("type", .str "error"), ("message_id", .str "E999")]], none⟩
    ∧ Json.obj [("type", .str "error"), ("message_id", .str "E999")]
        ∈ (PylintReport.mk (.num 9)
            [Json.obj [("type", .str "error"), ("message_id", .str "E999")]] none).messages :=
  ⟨rfl,
    filterLint_keeps_unignored_high_severity.1
      ⟨.num 9, [Json.obj [("type", .str "error"), ("message_id", .str "E999")]], none⟩
      ⟨.num 9, [Json.obj [("type", .str "error"), ("message_id", .str "E999")]], none⟩
      rfl _ (by simp) "E999" "error" rfl (by decide) rfl (Or.inr rfl)⟩

/-! ## Claim theorems: the cleaning step -/

/-- C8, counterexample: the cleaning step is not limited to leading and
trailing fence markers.  On the input `{"a": "```"}` — a JSON object
whose string value contains a fence marker, with no leading or trailing
fence markers at all — `_clean_json_response` removes the interior
marker, so the text between the (absent) outermost fence markers is not
left unchanged. -/
theorem cleanJsonResponse_modifies_interior :
    cleanJsonResponse "\x7b\"a\": \"```\"\x7d" = "\x7b\"a\": \"\"\x7d" ∧
      cleanJsonResponse "\x7b\"a\": \"```\"\x7d" ≠ "\x7b\"a\": \"```\"\x7d" := by
  constructor
  · rfl
  · decide

/-- C8, amended: the cleaning step removes every code-fence marker
occurrence (three backticks, optionally followed by `json`) wherever it
occurs — interior occurrences included — and then strips surrounding
whitespace and trailing backticks.  Hence the cleaned output never
contains a fence marker, and on inputs that contain no fence marker the
step performs exactly the whitespace strip followed by the
trailing-backtick strip. -/
theorem cleanJsonResponse_removes_all_fences :
    (∀ s : String, ¬ ([btick, btick, btick] <:+: (cleanJsonResponse s).toList))
    ∧ (∀ s : String, hasTriple s.toList = false →
        cleanJsonResponse s
          = (rstripBy (fun c => c = btick) (stripWs s.toList)).asString) := by
  constructor
  · intro s
    have hlist : (cleanJsonResponse s).toList = cleanResponseL s.toList := rfl
    rw [hlist]
    have h1 : hasTriple (removeFences s.toList) = false :=
      hasTriple_removeFences s.toList
    have hinf : cleanResponseL s.toList <:+: removeFences s.toList := by
      unfold cleanResponseL stripWs lstripWs
      refine List.IsInfix.trans ?_
        ((List.dropWhile_suffix isPyWs).isInfix)
      exact List.IsInfix.trans
        ((rstripBy_prefixOf _ _).isInfix)
        ((rstripBy_prefixOf isPyWs _).isInfix)
    have h2 : hasTriple (cleanResponseL s.toList) = false :=
      hasTriple_false_of_infix _ _ hinf h1
    rw [← hasTriple_iff_infix]
    simp only [Bool.not_eq_true]
    exact h2
  · intro s h
    unfold cleanJsonResponse cleanResponseL
    rw [removeFences_of_hasTriple_false _ h]

/-- Witness for C8 (amended part): on the fence-free input `abc`
cleaning is exactly strip-whitespace-then-strip-trailing-backticks. -/
theorem cleanJsonResponse_removes_all_fences_witness :
    hasTriple "abc".toList = false ∧
      cleanJsonResponse "abc"
        = (rstripBy (fun c => c = btick) (stripWs "abc".toList)).asString :=
  ⟨by decide, cleanJsonResponse_removes_all_fences.2 "abc" (by decide)⟩

/-- C9: the cleaning step is idempotent on already-clean JSON text.  A
clean JSON text ends with a JSON terminator character (closing quote,
closing brace or bracket, a digit, or the last letter of
`true`/`false`/`null`) and with no trailing whitespace; for every
string whose last character is such a terminator,
`clean(clean(x)) = clean(x)`. -/
theorem cleanJsonResponse_idempotent :
    ∀ (s : String) (c : Char), s.toList.getLast? = some c →
      isJsonTerminator c = true →
      cleanJsonResponse (cleanJsonResponse s) = cleanJsonResponse s := by
  intro s c hlast hterm
  obtain ⟨hb, hn, hws⟩ := jsonTerminator_props c hterm
  obtain ⟨hform, hlastCL⟩ := cleanResponseL_of_terminator s.toList c hlast hterm
  set CL := cleanResponseL s.toList with hCL
  have htripCL : hasTriple CL = false := by
    have h1 : hasTriple (removeFences s.toList) = false :=
      hasTriple_removeFences s.toList
    exact hasTriple_false_of_infix _ _
      (hform ▸ (List.dropWhile_suffix isPyWs).isInfix) h1
  have hCL2 : cleanResponseL CL = CL := by
    unfold cleanResponseL
    rw [removeFences_of_hasTriple_false _ htripCL]
    have hdw : CL.dropWhile isPyWs = CL := by
      rw [hform]
      exact List.dropWhile_idempotent _ _
    have hst : stripWs CL = CL := by
      unfold stripWs lstripWs
      rw [hdw]
      exact rstripBy_noop _ _ _ hlastCL hws
    rw [hst]
    exact rstripBy_noop _ _ _ hlastCL (by simp [hb])
  show ((cleanResponseL ((CL.asString).toList))).asString = CL.asString
  have : (CL.asString).toList = CL := rfl
  rw [this, hCL2]

/-- Witness for C9 at a concrete input: the clean JSON text `{}` (last
character is the terminator `}`) is a fixed point of a second clean. -/
theorem cleanJsonResponse_idempotent_witness :
    ("{}" : String).toList.getLast? = some '}' ∧
      isJsonTerminator '}' = true ∧
      cleanJsonResponse (cleanJsonResponse "{}") = cleanJsonResponse "{}" :=
  ⟨by decide, by decide, cleanJsonResponse_idempotent "{}" '}' (by decide) (by decide)⟩

end SCA
